import Mathlib

/-!
Shallow embedding of the task supervision core of src/src/libcore/task.rs.

Conventions of the embedding:
* a primitive task token (`*rust_task`) is a natural number; equality of
  tokens models pointer equality;
* a `TaskSet` (`LinearMap<*rust_task,()>`) is a list of tokens in which
  membership is what matters; `insert` prepends after an overwrite check and
  `remove` erases after a presence check, mirroring the two `assert`s in
  `taskset_insert` / `taskset_remove`;
* a runtime `assert` failure (task failure / panic) is modelled by `none` in
  an `Option` result;
* the contents of a `TaskGroupArc` (`Exclusive<Option<TaskGroupData>>`) is a
  `TGState`; `none` is the failing sentinel;
* mutation through `&mut` becomes explicit state passing: a Rust function
  mutating a `TaskGroupInner` becomes a Lean function from the old state to
  the new state (paired with its return value);
* the cons-style `AncestorList` becomes a Lean list whose head is the newest
  generation; the `ancestors` field of a node is the tail of the list;
* kill signals issued by `kill_taskgroup` are returned as a list of target
  tokens plus a process-wide kill flag, since the runtime side effects
  (`rust_task_kill_other`, `rust_task_kill_all`) are external.
-/

namespace RustTask

/-- A primitive task token (pointer-sized, compared by identity). -/
abbrev Task := Nat

/-- `type TaskSet = send_map::linear::LinearMap<*rust_task,()>` viewed as the
list of its keys. -/
abbrev TaskSet := List Task

/-- `fn new_taskset() -> TaskSet` -/
def new_taskset : TaskSet := []

/-- `fn taskset_insert`: `insert` returns whether it did not overwrite, and
the result is asserted; an overwrite is a panic (`none`). -/
def taskset_insert (tasks : TaskSet) (task : Task) : Option TaskSet :=
  if tasks.contains task then none else some (task :: tasks)

/-- `fn taskset_remove`: `remove` returns whether the key was present, and
the result is asserted; removing an absent task is a panic (`none`). -/
def taskset_remove (tasks : TaskSet) (task : Task) : Option TaskSet :=
  if tasks.contains task then some (tasks.erase task) else none

/-- `type TaskGroupData = { mut members: TaskSet, mut descendants: TaskSet }` -/
structure TaskGroupData where
  members : TaskSet
  descendants : TaskSet
  deriving Repr, DecidableEq

/-- Contents of a `TaskGroupArc`: `Option<TaskGroupData>`, where `none` is
the failing sentinel. -/
abbrev TGState := Option TaskGroupData

/-- `pure fn taskgroup_is_dead(tg: &TaskGroupData) -> bool` -/
def taskgroup_is_dead (tg : TaskGroupData) : Bool :=
  tg.members.isEmpty

/-- `fn enlist_in_taskgroup(state, me, is_member) -> bool`.  Replaces the
state with `None`; if it was `None` the group was failing and the result is
`false`; otherwise inserts `me` into members or descendants (panicking on an
overwrite, per `taskset_insert`) and restores the state. -/
def enlist_in_taskgroup (state : TGState) (me : Task) (is_member : Bool) :
    Option (TGState × Bool) :=
  match state with
  | none => some (none, false)
  | some group =>
    if is_member then
      match taskset_insert group.members me with
      | none => none
      | some ms => some (some { group with members := ms }, true)
    else
      match taskset_insert group.descendants me with
      | none => none
      | some ds => some (some { group with descendants := ds }, true)

/-- `fn leave_taskgroup(state, me, is_member)`.  No-op when the state is
`None`; otherwise removes `me` from the designated set, panicking (per the
`assert` in `taskset_remove`) if `me` is absent. -/
def leave_taskgroup (state : TGState) (me : Task) (is_member : Bool) :
    Option TGState :=
  match state with
  | none => some none
  | some group =>
    if is_member then
      match taskset_remove group.members me with
      | none => none
      | some ms => some (some { group with members := ms })
    else
      match taskset_remove group.descendants me with
      | none => none
      | some ds => some (some { group with descendants := ds })

/-- `fn kill_taskgroup(state, me, is_main)`.  Takes the state; if it was
already `None` nothing happens.  Otherwise it signals every member other
than `me`, then every descendant (asserting `child != me`), then issues a
process-wide kill iff `is_main`.  Returns the final state, the list of
signalled tasks, and the process-kill flag. -/
def kill_taskgroup (state : TGState) (me : Task) (is_main : Bool) :
    Option (TGState × List Task × Bool) :=
  match state with
  | none => some (none, [], false)
  | some group =>
    if group.descendants.contains me then none
    else some (none, group.members.filter (fun s => s != me) ++ group.descendants, is_main)

/-- `type AncestorNode` minus its `ancestors` field, which in this embedding
is the tail of the enclosing list.  `parent_group` holds the contents of the
parent `TaskGroupArc` directly (the `Option` wrapper around the arc in the
source is only there to appease borrowck and is always `Some` between
operations). -/
structure AncestorNode where
  generation : Nat
  parent_group : TGState
  deriving Repr, DecidableEq

/-- `enum AncestorList = Option<Exclusive<AncestorNode>>` flattened into a
Lean list: `[]` is the terminator, the head is the newest generation. -/
abbrev AncestorList := List AncestorNode

/-- The dead-group test performed inside `iterate` on a possibly failing
parent group: `Some(tg) => taskgroup_is_dead(tg), None => false`. -/
def nodeIsDead (pg : TGState) : Bool :=
  match pg with
  | some tg => taskgroup_is_dead tg
  | none => false

/-- `uint::max_value` on a 64-bit target, the kickoff generation. -/
def uint_max : Nat := 2 ^ 64 - 1

/-- Strict decrease of generations along a chain, below a starting bound.
This is the invariant the walker asserts at every descent. -/
def chainLT : AncestorList → Nat → Bool
  | [], _ => true
  | nobe :: rest, bound => decide (nobe.generation < bound) && chainLT rest nobe.generation

/-- The combined `coalesce` / `iterate` recursion inside `each_ancestor`.
At each node: assert generation monotonicity (panic on violation); decide
deadness of the parent group; run `forward_blk` unless dead; recurse on the
tail when continuing; run `bail_blk` on this node when the recursion broke
and this node is live; splice the node out of the returned chain when dead.
The returned Bool is `need_unwind` (an early break happened at or below
here). -/
def iterateA (bail_opt : Option (TGState → Option TGState))
    (forward_blk : TGState → Option (TGState × Bool)) :
    AncestorList → Nat → Option (AncestorList × Bool)
  | [], _ => some ([], false)
  | nobe :: rest, last_generation =>
    if last_generation ≤ nobe.generation then none
    else
      let nobe_is_dead := nodeIsDead nobe.parent_group
      let step1 : Option (TGState × Bool) :=
        if nobe_is_dead then some (nobe.parent_group, true)
        else forward_blk nobe.parent_group
      match step1 with
      | none => none
      | some (pg1, do_continue) =>
        let step2 : Option (AncestorList × Bool) :=
          if do_continue then iterateA bail_opt forward_blk rest nobe.generation
          else some (rest, false)
        match step2 with
        | none => none
        | some (rest1, need_unwind) =>
          let step3 : Option TGState :=
            if need_unwind && !nobe_is_dead then
              match bail_opt with
              | some bail_blk => bail_blk pg1
              | none => some pg1
            else some pg1
          match step3 with
          | none => none
          | some pg2 =>
            let nu2 := need_unwind || !do_continue
            if nobe_is_dead then some (rest1, nu2)
            else some (⟨nobe.generation, pg2⟩ :: rest1, nu2)

/-- `fn each_ancestor(list, bail_opt, forward_blk) -> bool`: kickoff with
`uint::max_value`; the outer result is the new chain and the negation of
`need_unwind` (true iff the walk completed without an early break). -/
def each_ancestor (list : AncestorList)
    (bail_opt : Option (TGState → Option TGState))
    (forward_blk : TGState → Option (TGState × Bool)) :
    Option (AncestorList × Bool) :=
  (iterateA bail_opt forward_blk list uint_max).map (fun p => (p.1, !p.2))

/-- Helper used by the claim-side walker: apply the optional bail block. -/
def applyBail (bail_opt : Option (TGState → TGState)) (s : TGState) : TGState :=
  match bail_opt with
  | some b => b s
  | none => s

/-- Claim-side reference walker, written from the words of the spec for the
refinement claim about `each_ancestor`: a dead node is skipped (the forward
block is not applied to it), spliced out of the chain, and never bailed; at
a live node the forward block runs; if it breaks, the node keeps the forward
result and the walk stops; if a break happens further down, the bail block
runs on every live node visited before the break. -/
def walkClaim (bail_opt : Option (TGState → TGState))
    (forward_blk : TGState → TGState × Bool) :
    AncestorList → AncestorList × Bool
  | [] => ([], false)
  | nobe :: rest =>
    if nodeIsDead nobe.parent_group then
      walkClaim bail_opt forward_blk rest
    else
      match forward_blk nobe.parent_group with
      | (pg1, true) =>
        match walkClaim bail_opt forward_blk rest with
        | (rest1, true) => (⟨nobe.generation, applyBail bail_opt pg1⟩ :: rest1, true)
        | (rest1, false) => (⟨nobe.generation, pg1⟩ :: rest1, false)
      | (pg1, false) => (⟨nobe.generation, pg1⟩ :: rest, true)

/-- `fn enlist_many(child, child_arc, ancestors) -> bool` from
`make_child_wrapper`: join the own taskgroup as a member; if that succeeds
walk the ancestor chain enlisting as a descendant with bail = leave as a
descendant; if the walk broke early, also leave the own taskgroup. -/
def enlist_many (child : Task) (child_arc : TGState) (ancestors : AncestorList) :
    Option (TGState × AncestorList × Bool) :=
  match enlist_in_taskgroup child_arc child true with
  | none => none
  | some (arc1, result) =>
    if result then
      match each_ancestor ancestors
              (some (fun tg => leave_taskgroup tg child false))
              (fun tg => enlist_in_taskgroup tg child false) with
      | none => none
      | some (anc1, result2) =>
        if result2 then some (arc1, anc1, true)
        else
          match leave_taskgroup arc1 child true with
          | none => none
          | some arc2 => some (arc2, anc1, false)
    else
      some (arc1, ancestors, false)

/-- The payload of the `Exit` notification message. -/
inductive TaskResult where
  | Success
  | Failure
  deriving Repr, DecidableEq

/-- `struct AutoNotify` minus its channel endpoint: just the mutable
`failed` flag. -/
structure AutoNotify where
  failed : Bool
  deriving Repr, DecidableEq

/-- `fn AutoNotify(chan)`: constructed pessimistically with `failed = true`. -/
def mkAutoNotify : AutoNotify := { failed := true }

/-- The `drop` of `AutoNotify`: the single `Exit` message carries `Failure`
iff the `failed` flag is set. -/
def autonotify_drop (a : AutoNotify) : TaskResult :=
  if a.failed then TaskResult.Failure else TaskResult.Success

/-- The `TCB` constructor runs `notifier.iter(|x| x.failed = false)`. -/
def tcb_ctor_notifier (notifier : Option AutoNotify) : Option AutoNotify :=
  notifier.map (fun x => { x with failed := false })

/-- The `drop` block of `struct TCB`.  If the task is unwinding: set the
notifier flag back to `true` and kill the own taskgroup; otherwise leave the
own taskgroup as a member.  In both cases walk the ancestors once with
forward = leave-as-descendant and no bail.  Returns the final own group
state, final chain, kill signals sent, process-kill flag, and the notifier
about to be dropped. -/
def tcb_drop (me : Task) (tasks : TGState) (ancestors : AncestorList)
    (is_main : Bool) (unwinding : Bool) (notifier : Option AutoNotify) :
    Option (TGState × AncestorList × List Task × Bool × Option AutoNotify) :=
  let notifier1 := if unwinding then notifier.map (fun x => { x with failed := true })
                   else notifier
  match (if unwinding then kill_taskgroup tasks me is_main
         else (leave_taskgroup tasks me true).map (fun s => (s, [], false))) with
  | none => none
  | some (tasks1, kills, kall) =>
    match each_ancestor ancestors none
            (fun tg => (leave_taskgroup tg me false).map (fun s => (s, true))) with
    | none => none
    | some (anc1, _) =>
      some (tasks1, anc1, kills, kall, notifier1)

/-- Observable outcome of running the child wrapper to completion. -/
structure SpawnOutcome where
  body_ran : Bool
  child_arc : TGState
  ancestors : AncestorList
  killed : List Task
  killed_all : Bool
  notify : Option TaskResult
  deriving Repr, DecidableEq

/-- The closure built by `make_child_wrapper`, run by the child task, with
the TCB teardown inlined after the body.  The notifier is created with
`failed = true`; on successful enlistment the TCB constructor clears the
flag, the body runs (`body_fails` tells whether it unwinds), and the TCB
drop plus notifier drop fire; on failed enlistment nothing but the notifier
drop happens. -/
def run_child (child : Task) (child_arc : TGState) (ancestors : AncestorList)
    (is_main : Bool) (has_notifier : Bool) (body_fails : Bool) :
    Option SpawnOutcome :=
  let notifier0 : Option AutoNotify := if has_notifier then some mkAutoNotify else none
  match enlist_many child child_arc ancestors with
  | none => none
  | some (arc1, anc1, ok) =>
    if ok then
      let notifier1 := tcb_ctor_notifier notifier0
      match tcb_drop child arc1 anc1 is_main body_fails notifier1 with
      | none => none
      | some (arc2, anc2, kills, kall, notifier2) =>
        some { body_ran := true, child_arc := arc2, ancestors := anc2,
               killed := kills, killed_all := kall,
               notify := notifier2.map autonotify_drop }
    else
      some { body_ran := false, child_arc := arc1, ancestors := anc1,
             killed := [], killed_all := false,
             notify := notifier0.map autonotify_drop }

/-- The relevant fields of the spawning task's TCB, as read (or lazily made)
in Step 1 of `gen_child_taskgroup`. -/
structure SpawnerInfo where
  tasks : TGState
  ancestors : AncestorList
  is_main : Bool
  deriving Repr, DecidableEq

/-- Step 2 of `fn gen_child_taskgroup(linked, supervised)`: derive the
child's taskgroup, ancestor chain and main-ness from the spawning task's
TCB (sharing of arcs becomes plain value reuse in the pure model).  The
`assert new_generation < uint::max_value` is a potential panic (`none`);
generation arithmetic wraps at 2^64 as `uint` does. -/
def gen_child_taskgroup (linked supervised : Bool) (spawner_group : SpawnerInfo) :
    Option (TGState × AncestorList × Bool) :=
  if linked then
    some (spawner_group.tasks, spawner_group.ancestors, spawner_group.is_main)
  else
    let g : TGState := some { members := new_taskset, descendants := new_taskset }
    if supervised then
      let old_ancestors := spawner_group.ancestors
      let new_generation :=
        match old_ancestors with
        | arc :: _ => (arc.generation + 1) % 2 ^ 64
        | [] => 0
      if new_generation < uint_max then
        some (g, ⟨new_generation, spawner_group.tasks⟩ :: old_ancestors, false)
      else none
    else
      some (g, [], false)

/-- `type TaskOpts`; the channel and scheduler payloads are abstracted to
unit since only presence matters to the builder logic modelled here. -/
structure TaskOpts where
  linked : Bool
  supervised : Bool
  notify_chan : Option Unit
  sched : Option Unit
  deriving Repr, DecidableEq

/-- `fn default_task_opts()` -/
def default_task_opts : TaskOpts :=
  { linked := true, supervised := false, notify_chan := none, sched := none }

/-- `enum TaskBuilder` reduced to its option record and consumed flag (the
body wrapper and the non-copyable marker do not affect the linkage flags). -/
structure TaskBuilder where
  opts : TaskOpts
  consumed : Bool
  deriving Repr, DecidableEq

/-- `fn task()` -/
def task : TaskBuilder := { opts := default_task_opts, consumed := false }

/-- `fn consume()`: fails (fake move mode) when the builder was already
consumed; otherwise yields a fresh un-consumed builder with the same
options. -/
def TaskBuilder.consume (b : TaskBuilder) : Option TaskBuilder :=
  if b.consumed then none
  else some { opts := b.opts, consumed := false }

/-- `fn unlinked()`: sets `linked = false` and keeps the current
`supervised` flag. -/
def TaskBuilder.unlinked (b : TaskBuilder) : Option TaskBuilder :=
  b.consume.map (fun c =>
    { c with opts := { linked := false, supervised := b.opts.supervised,
                       notify_chan := b.opts.notify_chan, sched := b.opts.sched } })

/-- `fn supervised()`: sets `linked = false` and `supervised = true`. -/
def TaskBuilder.supervised (b : TaskBuilder) : Option TaskBuilder :=
  b.consume.map (fun c =>
    { c with opts := { linked := false, supervised := true,
                       notify_chan := b.opts.notify_chan, sched := b.opts.sched } })

/-- `fn linked()`: sets `linked = true` and `supervised = false`. -/
def TaskBuilder.linked (b : TaskBuilder) : Option TaskBuilder :=
  b.consume.map (fun c =>
    { c with opts := { linked := true, supervised := false,
                       notify_chan := b.opts.notify_chan, sched := b.opts.sched } })

/-- TLS key: the code-pointer component of a `LocalDataKey` closure. -/
abbrev Key := Nat

/-- TLS value: the boxed payload, abstracted to a token. -/
abbrev Val := Nat

/-- `type TaskLocalMap = @DVec<Option<TaskLocalElement>>`: an ordered list
of optional (key, value) entries.  The redundant raw-pointer copy of the
value in a `TaskLocalElement` is collapsed into the value itself. -/
abbrev TaskLocalMap := List (Option (Key × Val))

/-- `fn local_data_lookup`: position of the first entry whose key matches,
together with the stored value. -/
def local_data_lookup : TaskLocalMap → Key → Option (Nat × Val)
  | [], _ => none
  | none :: rest, key => (local_data_lookup rest key).map (fun p => (p.1 + 1, p.2))
  | some (k, v) :: rest, key =>
    if k = key then some (0, v)
    else (local_data_lookup rest key).map (fun p => (p.1 + 1, p.2))

/-- `fn local_get_helper(task, key, do_pop)`: look the key up; when found,
optionally clear the slot (`set_elt(index, None)`), and return the value. -/
def local_get_helper (map : TaskLocalMap) (key : Key) (do_pop : Bool) :
    TaskLocalMap × Option Val :=
  match local_data_lookup map key with
  | some (index, v) => ((if do_pop then map.set index none else map), some v)
  | none => (map, none)

/-- `fn local_get` -/
def local_get (map : TaskLocalMap) (key : Key) : Option Val :=
  (local_get_helper map key false).2

/-- `fn local_pop` -/
def local_pop (map : TaskLocalMap) (key : Key) : TaskLocalMap × Option Val :=
  local_get_helper map key true

/-- The `position` method of `DVec`: index of the first element satisfying
the predicate. -/
def dvec_position (p : Option (Key × Val) → Bool) : TaskLocalMap → Option Nat
  | [] => none
  | e :: rest => if p e then some 0 else (dvec_position p rest).map (fun i => i + 1)

/-- `fn local_set(task, key, data)`: overwrite in place when the key is
present; otherwise reuse the first empty slot (`position(|x| x.is_none())`);
otherwise push at the end. -/
def local_set (map : TaskLocalMap) (key : Key) (v : Val) : TaskLocalMap :=
  let new_entry : Option (Key × Val) := some (key, v)
  match local_data_lookup map key with
  | some (index, _) => map.set index new_entry
  | none =>
    match dvec_position (fun x => x.isNone) map with
    | some empty_index => map.set empty_index new_entry
    | none => map ++ [new_entry]

/-- True when the task token appears in neither set of a group state. -/
def taskNotIn (t : Task) (s : TGState) : Bool :=
  match s with
  | none => true
  | some g => !(g.members.contains t) && !(g.descendants.contains t)

/-- C3 counterexample: removing a task that is not present in the designated
set is not tolerated — the `assert was_present` in `taskset_remove` fires,
which is a task failure, modelled as `none`.  Here the group is live (state
is `Some`) and task 0 is in neither set. -/
theorem c3_leave_absent_panics :
    leave_taskgroup (some { members := [], descendants := [] }) 0 true = none := rfl

/-- C3 (amended): leave on a failing group (state `None`) is a no-op; on a
live group it removes the task from the designated set when the task is
present; removing an absent task triggers the assertion in `taskset_remove`
and fails (it is not tolerated). -/
theorem c3_leave_taskgroup (me : Task) (is_member : Bool) :
    leave_taskgroup none me is_member = some none ∧
    (∀ g : TaskGroupData,
      (if is_member then g.members else g.descendants).contains me = true →
      leave_taskgroup (some g) me is_member =
        some (some (if is_member then { g with members := g.members.erase me }
                    else { g with descendants := g.descendants.erase me }))) ∧
    (∀ g : TaskGroupData,
      (if is_member then g.members else g.descendants).contains me = false →
      leave_taskgroup (some g) me is_member = none) := by
  refine ⟨rfl, ?_, ?_⟩ <;> intro g h <;> cases is_member <;>
    simp_all [leave_taskgroup, taskset_remove]

/-- Closed instance of the amended C3 theorem at concrete inputs. -/
theorem c3_leave_taskgroup_witness :
    leave_taskgroup (some { members := [0], descendants := [5] }) 0 true =
      some (some { members := [], descendants := [5] }) ∧
    leave_taskgroup (some { members := [], descendants := [] }) 0 true = none := by
  have h := c3_leave_taskgroup 0 true
  refine ⟨?_, h.2.2 { members := [], descendants := [] } (by decide)⟩
  have h2 := h.2.1 { members := [0], descendants := [5] } (by decide)
  simpa using h2

/-- C4: kill on a non-failing group takes the state (leaving it `None`),
signals every member except the caller and every descendant, and issues a
process-wide kill iff `is_main`; on an already failing group the whole
operation is a no-op. -/
theorem c4_kill_taskgroup (g : TaskGroupData) (me : Task) (is_main : Bool)
    (h : g.descendants.contains me = false) :
    kill_taskgroup none me is_main = some (none, [], false) ∧
    ∃ kills, kill_taskgroup (some g) me is_main = some (none, kills, is_main) ∧
      ∀ t, t ∈ kills ↔ (t ∈ g.members ∧ t ≠ me) ∨ t ∈ g.descendants := by
  refine ⟨rfl, g.members.filter (fun s => s != me) ++ g.descendants, ?_, ?_⟩
  · have h2 : me ∉ g.descendants := by simpa using h
    simp [kill_taskgroup, h2]
  · intro t
    simp [List.mem_append, List.mem_filter, bne_iff_ne]

/-- Closed instance of the C4 theorem at concrete inputs. -/
theorem c4_kill_taskgroup_witness :
    kill_taskgroup none 7 true = some (none, [], false) ∧
    ∃ kills, kill_taskgroup (some ⟨[1, 7, 2], [3, 4]⟩) 7 true = some (none, kills, true) ∧
      ∀ t, t ∈ kills ↔ (t ∈ ([1, 7, 2] : List Task) ∧ t ≠ 7) ∨ t ∈ ([3, 4] : List Task) :=
  c4_kill_taskgroup ⟨[1, 7, 2], [3, 4]⟩ 7 true (by decide)

/-- C6: enlist returns `false` exactly when the group is failing, in which
case the state stays `None`; on a live group a task not already present is
inserted into the designated set and `true` is returned; a task already
present trips the no-overwrite assertion; and a cleared state slot is never
re-populated by enlist, leave or kill. -/
theorem c6_enlist_in_taskgroup (me : Task) (is_member : Bool) :
    enlist_in_taskgroup none me is_member = some (none, false) ∧
    (∀ g : TaskGroupData,
      (if is_member then g.members else g.descendants).contains me = false →
      enlist_in_taskgroup (some g) me is_member =
        some (some (if is_member then { g with members := me :: g.members }
                    else { g with descendants := me :: g.descendants }), true)) ∧
    (∀ g : TaskGroupData,
      (if is_member then g.members else g.descendants).contains me = true →
      enlist_in_taskgroup (some g) me is_member = none) ∧
    (∀ (s r : TGState),
      enlist_in_taskgroup s me is_member = some (r, false) → s = none ∧ r = none) ∧
    (∀ is_main, kill_taskgroup none me is_main = some (none, [], false)) ∧
    leave_taskgroup none me is_member = some none := by
  refine ⟨rfl, ?_, ?_, ?_, fun _ => rfl, rfl⟩
  · intro g h; cases is_member <;> simp_all [enlist_in_taskgroup, taskset_insert]
  · intro g h; cases is_member <;> simp_all [enlist_in_taskgroup, taskset_insert]
  · intro s r h
    cases s with
    | none =>
      simp only [enlist_in_taskgroup, Option.some.injEq, Prod.mk.injEq] at h
      exact ⟨rfl, h.1.symm⟩
    | some g =>
      exfalso
      cases is_member <;> simp only [enlist_in_taskgroup] at h <;>
        rcases hins : taskset_insert (if true = true then g.members else g.descendants) me with
          _ | _ <;> simp_all [taskset_insert] <;> split at h <;> simp_all

/-- Closed instance of the C6 theorem at concrete inputs. -/
theorem c6_enlist_in_taskgroup_witness :
    enlist_in_taskgroup none 4 true = some (none, false) ∧
    enlist_in_taskgroup (some ⟨[1], [2]⟩) 4 true =
      some (some ⟨[4, 1], [2]⟩, true) ∧
    enlist_in_taskgroup (some ⟨[4], []⟩) 4 true = none := by
  have h := c6_enlist_in_taskgroup 4 true
  refine ⟨h.1, ?_, h.2.2.1 ⟨[4], []⟩ (by decide)⟩
  have h2 := h.2.1 ⟨[1], [2]⟩ (by decide)
  simpa using h2

/-- C9: enlist and leave touch only the designated set — the other set is
unchanged — and when the state is `None` both operations return the state
exactly as it was. -/
theorem c9_frame_effect (g : TaskGroupData) (me : Task) (is_member : Bool) :
    (∀ (g1 : TaskGroupData) (b : Bool),
      enlist_in_taskgroup (some g) me is_member = some (some g1, b) →
      (is_member = true → g1.descendants = g.descendants) ∧
      (is_member = false → g1.members = g.members)) ∧
    (∀ g1 : TaskGroupData,
      leave_taskgroup (some g) me is_member = some (some g1) →
      (is_member = true → g1.descendants = g.descendants) ∧
      (is_member = false → g1.members = g.members)) ∧
    enlist_in_taskgroup none me is_member = some (none, false) ∧
    leave_taskgroup none me is_member = some none := by
  refine ⟨?_, ?_, rfl, rfl⟩
  · intro g1 b hb
    cases is_member <;>
      simp [enlist_in_taskgroup, taskset_insert] at hb <;>
      split at hb <;> simp_all <;> obtain ⟨rfl, -⟩ := hb <;> exact rfl
  · intro g1 hb
    cases is_member <;>
      simp [leave_taskgroup, taskset_remove] at hb <;>
      split at hb <;> simp_all <;> obtain rfl := hb <;> exact rfl

/-- Closed instance of the C9 theorem at concrete inputs. -/
theorem c9_frame_effect_witness :
    ((⟨[3], [2]⟩ : TaskGroupData).descendants = (⟨[], [2]⟩ : TaskGroupData).descendants) ∧
    enlist_in_taskgroup none 3 true = some (none, false) := by
  have h := c9_frame_effect ⟨[], [2]⟩ 3 true
  exact ⟨(h.1 ⟨[3], [2]⟩ true (by decide)).1 rfl, h.2.2.1⟩

/-- C10: the `linked` builder method fully determines both flags (true,
false), `supervised` fully determines both flags (false, true), but
`unlinked` only clears `linked` and keeps the current `supervised` flag, so
chaining `supervised` then `unlinked` still yields a supervised
configuration rather than an isolated one. -/
theorem c10_builder_flags (b : TaskBuilder) (h : b.consumed = false) :
    (∀ c, b.linked = some c → c.opts.linked = true ∧ c.opts.supervised = false) ∧
    (∀ c, b.supervised = some c → c.opts.linked = false ∧ c.opts.supervised = true) ∧
    (∀ c, b.unlinked = some c → c.opts.linked = false ∧
      c.opts.supervised = b.opts.supervised) ∧
    (task.supervised.bind TaskBuilder.unlinked).map
        (fun c => (c.opts.linked, c.opts.supervised)) = some (false, true) := by
  refine ⟨?_, ?_, ?_, by decide⟩ <;> intro c hc <;>
    obtain ⟨⟨cl, cs, cn, csch⟩, cc⟩ := c <;>
    simp [TaskBuilder.linked, TaskBuilder.supervised, TaskBuilder.unlinked,
      TaskBuilder.consume, h] at hc <;> simp_all

/-- Closed instance of the C10 theorem: the flags of `task().linked()` and of
`task().supervised().unlinked()`. -/
theorem c10_builder_flags_witness :
    ({ opts := { linked := true, supervised := false, notify_chan := none,
                 sched := none }, consumed := false } : TaskBuilder).opts.linked = true ∧
    (task.supervised.bind TaskBuilder.unlinked).map
        (fun c => (c.opts.linked, c.opts.supervised)) = some (false, true) := by
  have h := c10_builder_flags task rfl
  exact ⟨(h.1 { opts := { linked := true, supervised := false, notify_chan := none,
                          sched := none }, consumed := false } (by decide)).1, h.2.2.2⟩

/-- C5: the spawn decision table.  With `linked` the child shares the
spawning task's group, chain and main-ness (regardless of `supervised`);
with only `supervised` it gets a fresh empty group and a new chain head
whose parent group is the spawner's group, over the spawner's chain; with
neither it gets a fresh empty group and an empty chain.  The generation
hypothesis keeps the debug assertion from firing. -/
theorem c5_gen_child_taskgroup (linked supervised : Bool) (sp : SpawnerInfo)
    (hgen : ∀ n, sp.ancestors.head? = some n → n.generation + 1 < uint_max) :
    ∃ g a m, gen_child_taskgroup linked supervised sp = some (g, a, m) ∧
      (linked = true → g = sp.tasks ∧ a = sp.ancestors ∧ m = sp.is_main) ∧
      (linked = false → supervised = true →
        g = some { members := new_taskset, descendants := new_taskset } ∧ m = false ∧
        ∃ gen, a = ⟨gen, sp.tasks⟩ :: sp.ancestors) ∧
      (linked = false → supervised = false →
        g = some { members := new_taskset, descendants := new_taskset } ∧
        a = [] ∧ m = false) := by
  cases linked with
  | true =>
    exact ⟨sp.tasks, sp.ancestors, sp.is_main, rfl, fun _ => ⟨rfl, rfl, rfl⟩,
      fun hc => by simp at hc, fun hc => by simp at hc⟩
  | false =>
    cases supervised with
    | false =>
      exact ⟨some { members := new_taskset, descendants := new_taskset }, [], false,
        rfl, fun hc => by simp at hc, fun _ hc => by simp at hc,
        fun _ _ => ⟨rfl, rfl, rfl⟩⟩
    | true =>
      cases hanc : sp.ancestors with
      | nil =>
        refine ⟨some { members := new_taskset, descendants := new_taskset },
          [⟨0, sp.tasks⟩], false, ?_, fun hc => by simp at hc,
          fun _ _ => ⟨rfl, rfl, 0, rfl⟩, fun _ hc => by simp at hc⟩
        simp [gen_child_taskgroup, hanc, uint_max]
      | cons arc rest =>
        have hlt : arc.generation + 1 < uint_max := hgen arc (by rw [hanc]; rfl)
        have hmod : (arc.generation + 1) % 2 ^ 64 = arc.generation + 1 :=
          Nat.mod_eq_of_lt (lt_trans hlt (by norm_num [uint_max]))
        refine ⟨some { members := new_taskset, descendants := new_taskset },
          ⟨(arc.generation + 1) % 2 ^ 64, sp.tasks⟩ :: arc :: rest, false, ?_,
          fun hc => by simp at hc,
          fun _ _ => ⟨rfl, rfl, (arc.generation + 1) % 2 ^ 64, rfl⟩,
          fun _ hc => by simp at hc⟩
        have hmod2 : (arc.generation + 1) % 18446744073709551616 = arc.generation + 1 :=
          Nat.mod_eq_of_lt (lt_trans hlt (by norm_num [uint_max]))
        simp [gen_child_taskgroup, hanc, hmod, hmod2, hlt]

/-- Closed instance of the C5 theorem: a supervised spawn off a parent with
an empty chain. -/
theorem c5_gen_child_taskgroup_witness :
    ∃ g a m, gen_child_taskgroup false true ⟨some ⟨[1], []⟩, [], true⟩ = some (g, a, m) ∧
      (False → g = some ⟨[1], []⟩ ∧ a = [] ∧ m = true) ∧
      (g = some { members := new_taskset, descendants := new_taskset } ∧ m = false ∧
        ∃ gen, a = ⟨gen, some ⟨[1], []⟩⟩ :: ([] : AncestorList)) ∧
      (False → g = some { members := new_taskset, descendants := new_taskset } ∧
        a = [] ∧ m = false) := by
  obtain ⟨g, a, m, h1, -, h3, -⟩ :=
    c5_gen_child_taskgroup false true ⟨some ⟨[1], []⟩, [], true⟩
      (fun n hn => by simp at hn)
  exact ⟨g, a, m, h1, fun hf => hf.elim, h3 rfl rfl, fun hf => hf.elim⟩

/-- Helper: a successful `tcb_drop` hands the notifier through unchanged
when the body succeeded, and with the `failed` flag forced back to `true`
when the body was unwinding. -/
theorem tcb_drop_notifier_eq (me : Task) (tasks : TGState)
    (ancestors : AncestorList) (is_main unwinding : Bool)
    (notifier : Option AutoNotify) (r : TGState × AncestorList × List Task × Bool × Option AutoNotify)
    (h : tcb_drop me tasks ancestors is_main unwinding notifier = some r) :
    r.2.2.2.2 = if unwinding then notifier.map (fun x => { x with failed := true })
                else notifier := by
  simp only [tcb_drop] at h
  rcases h1 : (if unwinding then kill_taskgroup tasks me is_main
      else (leave_taskgroup tasks me true).map (fun s => (s, [], false))) with _ | ⟨t1, kl, ka⟩ <;>
    rw [h1] at h
  · simp at h
  · rcases h2 : each_ancestor ancestors none
        (fun tg => (leave_taskgroup tg me false).map (fun s => (s, true))) with _ | ⟨anc1, fl⟩ <;>
      rw [h2] at h
    · simp at h
    · simp only [Option.some.injEq] at h
      rw [← h]

/-- C7: the notifier is constructed with `failed = true`; the TCB
constructor clears the flag exactly when enlistment succeeded; the flag is
set back on unwinding; and per configured notifier exactly one `Exit`
message is produced, `Success` iff the body ran and completed normally
(no notifier, no message). -/
theorem c7_notifier_exactly_once (child : Task) (child_arc : TGState)
    (ancestors : AncestorList) (is_main body_fails : Bool) :
    mkAutoNotify.failed = true ∧
    (∀ n : AutoNotify, (tcb_ctor_notifier (some n)).map AutoNotify.failed = some false) ∧
    (∀ out, run_child child child_arc ancestors is_main true body_fails = some out →
      out.notify = some (if out.body_ran && !body_fails then TaskResult.Success
                         else TaskResult.Failure)) ∧
    (∀ out, run_child child child_arc ancestors is_main false body_fails = some out →
      out.notify = none) := by
  refine ⟨rfl, fun n => rfl, ?_, ?_⟩
  · intro out h
    simp only [run_child] at h
    split at h
    · exact absurd h (by simp)
    · rename_i arc1 anc1 ok heq
      split at h
      · split at h
        · exact absurd h (by simp)
        · rename_i hok a2 b2 c2 d2 n2 ht
          have hn := tcb_drop_notifier_eq child arc1 anc1 is_main body_fails
            _ _ ht
          simp only at hn
          injection h with h2
          subst h2
          cases body_fails <;>
            simp_all [autonotify_drop, mkAutoNotify, tcb_ctor_notifier]
      · injection h with h2
        subst h2
        simp [autonotify_drop, mkAutoNotify]
  · intro out h
    simp only [run_child] at h
    split at h
    · exact absurd h (by simp)
    · rename_i arc1 anc1 ok heq
      split at h
      · split at h
        · exact absurd h (by simp)
        · rename_i hok a2 b2 c2 d2 n2 ht
          have hn := tcb_drop_notifier_eq child arc1 anc1 is_main body_fails
            _ _ ht
          simp only at hn
          injection h with h2
          subst h2
          cases body_fails <;>
            simp_all [autonotify_drop, mkAutoNotify, tcb_ctor_notifier]
      · injection h with h2
        subst h2
        simp

/-- Closed instance of the C7 theorem: a successful spawn with a notifier
reports Success; one with no notifier reports nothing. -/
theorem c7_notifier_exactly_once_witness :
    ∃ out, run_child 0 (some { members := [], descendants := [] }) [] false true false =
        some out ∧
      out.notify = some (if out.body_ran && !false then TaskResult.Success
                         else TaskResult.Failure) := by
  have h := (c7_notifier_exactly_once 0 (some { members := [], descendants := [] })
      [] false false).2.2.1
  exact ⟨_, rfl, h _ rfl⟩

/-- Helper: the source walker, run with panic-free forward and bail blocks
under the generation invariant, computes exactly the claim-side reference
walk. -/
theorem iterateA_lift_eq_walkClaim (bail : Option (TGState → TGState))
    (forward : TGState → TGState × Bool) :
    ∀ (chain : AncestorList) (bound : Nat), chainLT chain bound = true →
    iterateA (bail.map (fun b s => some (b s))) (fun s => some (forward s)) chain bound
      = some (walkClaim bail forward chain) := by
  intro chain
  induction chain with
  | nil => intro bound _; rfl
  | cons nobe rest ih =>
    intro bound hwf
    simp only [chainLT, Bool.and_eq_true, decide_eq_true_eq] at hwf
    obtain ⟨h1, h2⟩ := hwf
    have hb : ¬ (bound ≤ nobe.generation) := by omega
    cases hd : nodeIsDead nobe.parent_group with
    | true =>
      cases hw : walkClaim bail forward rest with
      | mk rest1 nu =>
        simp [iterateA, walkClaim, hd, hb, ih nobe.generation h2, hw]
    | false =>
      cases hf : forward nobe.parent_group with
      | mk pg1 cont =>
        cases cont with
        | false => simp [iterateA, walkClaim, hd, hb, hf]
        | true =>
          cases hw : walkClaim bail forward rest with
          | mk rest1 broke =>
            cases broke with
            | false =>
              simp [iterateA, walkClaim, hd, hb, hf, ih nobe.generation h2, hw]
            | true =>
              have ihr := ih nobe.generation h2
              cases bail with
              | none =>
                simp only [Option.map] at ihr
                simp [iterateA, walkClaim, applyBail, hd, hb, hf, ihr, hw]
              | some bb =>
                simp only [Option.map] at ihr
                simp [iterateA, walkClaim, applyBail, hd, hb, hf, ihr, hw]

/-- C2: for every chain and every forward/bail pair, the walker behaves as
the claim states — `walkClaim` skips a dead node without applying forward
or bail to it and splices it out by continuing with its tail, and when
forward breaks at a node it applies bail to every live node visited before
that node and makes `each_ancestor` return false (the negated break flag). -/
theorem c2_each_ancestor_walk (chain : AncestorList)
    (bail : Option (TGState → TGState)) (forward : TGState → TGState × Bool)
    (hwf : chainLT chain uint_max = true) :
    each_ancestor chain (bail.map (fun b s => some (b s))) (fun s => some (forward s))
      = some ((walkClaim bail forward chain).1, !(walkClaim bail forward chain).2) := by
  rw [each_ancestor, iterateA_lift_eq_walkClaim bail forward chain uint_max hwf]
  rfl

/-- Closed instance of the C2 theorem: a dead head node is spliced while a
forward break at the next node stops the walk. -/
theorem c2_each_ancestor_walk_witness :
    each_ancestor [⟨3, some { members := [], descendants := [9] }⟩,
                   ⟨1, some { members := [2], descendants := [] }⟩]
        (Option.map (fun b s => some (b s)) (some (fun _ => (none : TGState))))
        (fun s => some ((s, false)))
      = some ([⟨1, some { members := [2], descendants := [] }⟩], false) := by
  have h := c2_each_ancestor_walk
    [⟨3, some { members := [], descendants := [9] }⟩,
     ⟨1, some { members := [2], descendants := [] }⟩]
    (some (fun _ => (none : TGState))) (fun s => (s, false)) (by decide)
  simpa using h

/-- Helper: when the child is fresh everywhere and some ancestor group in
the chain is failing, the enlist walk of `enlist_many` breaks early and
leaves the child out of every group in the resulting chain. -/
theorem enlist_walk_fail (child : Task) :
    ∀ (chain : AncestorList) (bound : Nat),
    chainLT chain bound = true →
    (∀ n ∈ chain, taskNotIn child n.parent_group = true) →
    (∃ n ∈ chain, n.parent_group = none) →
    ∃ chain2,
      iterateA (some (fun tg => leave_taskgroup tg child false))
               (fun tg => enlist_in_taskgroup tg child false) chain bound
        = some (chain2, true) ∧
      ∀ n ∈ chain2, taskNotIn child n.parent_group = true := by
  intro chain
  induction chain with
  | nil => intro bound _ _ hex; simp at hex
  | cons nobe rest ih =>
    intro bound hwf hfresh hex
    simp only [chainLT, Bool.and_eq_true, decide_eq_true_eq] at hwf
    obtain ⟨h1, h2⟩ := hwf
    have hb : ¬ (bound ≤ nobe.generation) := by omega
    have hfhead := hfresh nobe (List.mem_cons_self nobe rest)
    have hfrest : ∀ n ∈ rest, taskNotIn child n.parent_group = true :=
      fun n hn => hfresh n (List.mem_cons_of_mem _ hn)
    cases hpg : nobe.parent_group with
    | none =>
      refine ⟨⟨nobe.generation, none⟩ :: rest, ?_, ?_⟩
      · simp [iterateA, hb, hpg, nodeIsDead, enlist_in_taskgroup]
      · intro n hn
        rcases List.mem_cons.mp hn with rfl | hn2
        · rfl
        · exact hfrest n hn2
    | some tg =>
      have hex2 : ∃ n ∈ rest, n.parent_group = none := by
        rcases hex with ⟨n, hn, hnone⟩
        rcases List.mem_cons.mp hn with rfl | hn2
        · rw [hpg] at hnone; exact absurd hnone (by simp)
        · exact ⟨n, hn2, hnone⟩
      obtain ⟨rest2, hrec, hrest2⟩ := ih nobe.generation h2 hfrest hex2
      obtain ⟨ms, ds⟩ := tg
      have h3 := hfhead
      rw [hpg] at h3
      have hcd : ¬ child ∈ ds := by
        simp only [taskNotIn, Bool.and_eq_true, Bool.not_eq_true'] at h3
        simpa using h3.2
      cases hdead : taskgroup_is_dead ⟨ms, ds⟩ with
      | true =>
        refine ⟨rest2, ?_, hrest2⟩
        simp [iterateA, hb, hpg, nodeIsDead, hdead, hrec]
      | false =>
        have hfwd : enlist_in_taskgroup (some ⟨ms, ds⟩) child false
            = some (some ⟨ms, child :: ds⟩, true) := by
          simp [enlist_in_taskgroup, taskset_insert, hcd]
        have hbail : leave_taskgroup (some ⟨ms, child :: ds⟩) child false
            = some (some ⟨ms, ds⟩) := by
          simp [leave_taskgroup, taskset_remove, List.erase_cons_head]
        refine ⟨⟨nobe.generation, some ⟨ms, ds⟩⟩ :: rest2, ?_, ?_⟩
        · simp [iterateA, hb, hpg, nodeIsDead, hdead, hfwd, hrec, hbail]
        · intro n hn
          rcases List.mem_cons.mp hn with rfl | hn2
          · exact h3
          · exact hrest2 n hn2

/-- C1: if the child's own taskgroup or any ancestor group is already
failing at spawn time, the body never runs, every already-made enlistment
is undone (ancestors via the walker's bail, then the own group), and the
child appears in no members or descendants set of any group afterwards. -/
theorem c1_enlistment_atomicity (child : Task) (child_arc : TGState)
    (ancestors : AncestorList) (is_main has_notifier body_fails : Bool)
    (hwf : chainLT ancestors uint_max = true)
    (hfresh0 : taskNotIn child child_arc = true)
    (hfresh : ∀ n ∈ ancestors, taskNotIn child n.parent_group = true)
    (hfail : child_arc = none ∨ ∃ n ∈ ancestors, n.parent_group = none) :
    ∃ out, run_child child child_arc ancestors is_main has_notifier body_fails = some out ∧
      out.body_ran = false ∧
      taskNotIn child out.child_arc = true ∧
      ∀ n ∈ out.ancestors, taskNotIn child n.parent_group = true := by
  cases child_arc with
  | none =>
    refine ⟨{ body_ran := false, child_arc := none, ancestors := ancestors,
              killed := [], killed_all := false,
              notify := (if has_notifier then some mkAutoNotify else none).map
                autonotify_drop }, ?_, rfl, rfl, hfresh⟩
    simp [run_child, enlist_many, enlist_in_taskgroup]
  | some g =>
    obtain ⟨ms, ds⟩ := g
    have hex : ∃ n ∈ ancestors, n.parent_group = none := by
      rcases hfail with hnone | hex
      · exact absurd hnone (by simp)
      · exact hex
    have hcm : ¬ child ∈ ms := by
      simp only [taskNotIn, Bool.and_eq_true, Bool.not_eq_true'] at hfresh0
      simpa using hfresh0.1
    obtain ⟨chain2, hiter, hchain2⟩ :=
      enlist_walk_fail child ancestors uint_max hwf hfresh hex
    have hfwd0 : enlist_in_taskgroup (some ⟨ms, ds⟩) child true
        = some (some ⟨child :: ms, ds⟩, true) := by
      simp [enlist_in_taskgroup, taskset_insert, hcm]
    have hleave0 : leave_taskgroup (some ⟨child :: ms, ds⟩) child true
        = some (some ⟨ms, ds⟩) := by
      simp [leave_taskgroup, taskset_remove, List.erase_cons_head]
    refine ⟨{ body_ran := false, child_arc := some ⟨ms, ds⟩, ancestors := chain2,
              killed := [], killed_all := false,
              notify := (if has_notifier then some mkAutoNotify else none).map
                autonotify_drop }, ?_, rfl, hfresh0, hchain2⟩
    simp [run_child, enlist_many, each_ancestor, hfwd0, hiter, hleave0]

/-- Closed instance of the C1 theorem: spawning against a chain whose
second generation is already failing. -/
theorem c1_enlistment_atomicity_witness :
    ∃ out, run_child 7 (some { members := [1], descendants := [] })
        [⟨2, some { members := [2], descendants := [] }⟩, ⟨1, none⟩]
        false true false = some out ∧
      out.body_ran = false ∧
      taskNotIn 7 out.child_arc = true ∧
      ∀ n ∈ out.ancestors, taskNotIn 7 n.parent_group = true :=
  c1_enlistment_atomicity 7 (some { members := [1], descendants := [] })
    [⟨2, some { members := [2], descendants := [] }⟩, ⟨1, none⟩]
    false true false (by decide) (by decide) (by decide)
    (Or.inr ⟨⟨1, none⟩, by simp, rfl⟩)

/-- Number of entries of a task-local map stored under the given key. -/
def keyCount (map : TaskLocalMap) (key : Key) : Nat :=
  map.countP (fun e => match e with
    | some (k, _) => k == key
    | none => false)

/-- Helper: a key is missing from the map exactly when no entry counts. -/
theorem lookup_none_iff_keyCount_zero (key : Key) :
    ∀ map : TaskLocalMap,
      local_data_lookup map key = none ↔ keyCount map key = 0 := by
  intro map
  induction map with
  | nil => simp [local_data_lookup, keyCount]
  | cons e rest ih =>
    cases e with
    | none => simpa [local_data_lookup, keyCount, List.countP_cons] using ih
    | some p =>
      obtain ⟨k, w⟩ := p
      by_cases hk : k = key
      · subst hk
        simp [local_data_lookup, keyCount, List.countP_cons]
      · simpa [local_data_lookup, keyCount, List.countP_cons, hk] using ih

/-- Helper: a successful lookup points at an entry holding the key and the
returned value. -/
theorem get?_of_lookup (key : Key) :
    ∀ (map : TaskLocalMap) (i : Nat) (v : Val),
      local_data_lookup map key = some (i, v) →
      map.get? i = some (some (key, v)) := by
  intro map
  induction map with
  | nil => intro i v h; simp [local_data_lookup] at h
  | cons e rest ih =>
    intro i v h
    cases e with
    | none =>
      simp only [local_data_lookup] at h
      rcases hl : local_data_lookup rest key with _ | ⟨j, u⟩ <;> rw [hl] at h
      · simp at h
      · simp only [Option.map_some', Option.some.injEq, Prod.mk.injEq] at h
        obtain ⟨rfl, rfl⟩ := h
        simpa using ih j u hl
    | some p =>
      obtain ⟨k, w⟩ := p
      by_cases hk : k = key
      · subst hk
        simp only [local_data_lookup, if_pos rfl, Option.some.injEq,
          Prod.mk.injEq] at h
        obtain ⟨rfl, rfl⟩ := h
        simp
      · simp only [local_data_lookup, if_neg hk] at h
        rcases hl : local_data_lookup rest key with _ | ⟨j, u⟩ <;> rw [hl] at h
        · simp at h
        · simp only [Option.map_some', Option.some.injEq, Prod.mk.injEq] at h
          obtain ⟨rfl, rfl⟩ := h
          simpa using ih j u hl

/-- Helper: clearing the slot a lookup found removes exactly one counted
entry. -/
theorem keyCount_set_none_of_lookup (key : Key) :
    ∀ (map : TaskLocalMap) (i : Nat) (v : Val),
      local_data_lookup map key = some (i, v) →
      keyCount (map.set i none) key + 1 = keyCount map key := by
  intro map
  induction map with
  | nil => intro i v h; simp [local_data_lookup] at h
  | cons e rest ih =>
    intro i v h
    cases e with
    | none =>
      simp only [local_data_lookup] at h
      rcases hl : local_data_lookup rest key with _ | ⟨j, u⟩ <;> rw [hl] at h
      · simp at h
      · simp only [Option.map_some', Option.some.injEq, Prod.mk.injEq] at h
        obtain ⟨rfl, rfl⟩ := h
        simpa [keyCount, List.countP_cons] using ih j u hl
    | some p =>
      obtain ⟨k, w⟩ := p
      by_cases hk : k = key
      · subst hk
        simp only [local_data_lookup, if_pos rfl, Option.some.injEq,
          Prod.mk.injEq] at h
        obtain ⟨rfl, rfl⟩ := h
        simp [keyCount, List.countP_cons]
      · simp only [local_data_lookup, if_neg hk] at h
        rcases hl : local_data_lookup rest key with _ | ⟨j, u⟩ <;> rw [hl] at h
        · simp at h
        · simp only [Option.map_some', Option.some.injEq, Prod.mk.injEq] at h
          obtain ⟨rfl, rfl⟩ := h
          simpa [keyCount, List.countP_cons, hk] using ih j u hl

/-- Helper: replacing the slot a lookup found with another entry under the
same key keeps the count. -/
theorem keyCount_set_found (key : Key) (v : Val) :
    ∀ (map : TaskLocalMap) (i : Nat) (w : Val),
      local_data_lookup map key = some (i, w) →
      keyCount (map.set i (some (key, v))) key = keyCount map key := by
  intro map
  induction map with
  | nil => intro i w h; simp [local_data_lookup] at h
  | cons e rest ih =>
    intro i w h
    cases e with
    | none =>
      simp only [local_data_lookup] at h
      rcases hl : local_data_lookup rest key with _ | ⟨j, u⟩ <;> rw [hl] at h
      · simp at h
      · simp only [Option.map_some', Option.some.injEq, Prod.mk.injEq] at h
        obtain ⟨rfl, rfl⟩ := h
        simpa [keyCount, List.countP_cons] using ih j u hl
    | some p =>
      obtain ⟨k, u0⟩ := p
      by_cases hk : k = key
      · subst hk
        simp only [local_data_lookup, if_pos rfl, Option.some.injEq,
          Prod.mk.injEq] at h
        obtain ⟨rfl, rfl⟩ := h
        simp [keyCount, List.countP_cons]
      · simp only [local_data_lookup, if_neg hk] at h
        rcases hl : local_data_lookup rest key with _ | ⟨j, u⟩ <;> rw [hl] at h
        · simp at h
        · simp only [Option.map_some', Option.some.injEq, Prod.mk.injEq] at h
          obtain ⟨rfl, rfl⟩ := h
          simpa [keyCount, List.countP_cons, hk] using ih j u hl

/-- Helper: filling an empty slot with an entry under the key adds one to
the count. -/
theorem keyCount_set_empty (key : Key) (v : Val) :
    ∀ (map : TaskLocalMap) (j : Nat),
      map.get? j = some none →
      keyCount (map.set j (some (key, v))) key = keyCount map key + 1 := by
  intro map
  induction map with
  | nil => intro j h; simp at h
  | cons e rest ih =>
    intro j h
    cases j with
    | zero =>
      simp only [List.get?_cons_zero, Option.some.injEq] at h
      subst h
      simp [keyCount, List.countP_cons]
    | succ j2 =>
      simp only [List.get?_cons_succ] at h
      cases e with
      | none => simpa [keyCount, List.countP_cons] using ih j2 h
      | some p =>
        have h2 := ih j2 h
        simp only [keyCount] at h2 ⊢
        simp only [List.set_cons_succ, List.countP_cons]
        omega

/-- Helper: the first empty slot found by `position(|x| x.is_none())` holds
`none`. -/
theorem get?_of_position_isNone :
    ∀ (map : TaskLocalMap) (j : Nat),
      dvec_position (fun x => x.isNone) map = some j →
      map.get? j = some none := by
  intro map
  induction map with
  | nil => intro j h; simp [dvec_position] at h
  | cons e rest ih =>
    intro j h
    cases e with
    | none =>
      simp only [dvec_position, Option.isNone_none, if_pos, Option.some.injEq] at h
      subst h
      rfl
    | some p =>
      simp only [dvec_position, Option.isNone_some, Bool.false_eq_true, if_false] at h
      rcases hp : dvec_position (fun x => x.isNone) rest with _ | j2 <;> rw [hp] at h
      · simp at h
      · simp only [Option.map_some', Option.some.injEq] at h
        subst h
        simpa using ih j2 hp

/-- Helper: on a head entry with a different key, `local_set` acts on the
tail. -/
theorem local_set_cons_some_ne (key : Key) (v : Val) (k : Key) (w : Val)
    (hk : ¬ k = key) (rest : TaskLocalMap) :
    local_set (some (k, w) :: rest) key v = some (k, w) :: local_set rest key v := by
  cases hl : local_data_lookup rest key with
  | some p =>
    obtain ⟨i, u⟩ := p
    simp [local_set, local_data_lookup, hk, hl]
  | none =>
    cases hp : dvec_position (fun x => x.isNone) rest with
    | some j => simp [local_set, local_data_lookup, hk, hl, dvec_position, hp]
    | none => simp [local_set, local_data_lookup, hk, hl, dvec_position, hp]

/-- Helper: on an empty head slot, when the key is present in the tail,
`local_set` acts on the tail. -/
theorem local_set_cons_none_found (key : Key) (v : Val) (rest : TaskLocalMap)
    (i : Nat) (u : Val) (hl : local_data_lookup rest key = some (i, u)) :
    local_set (none :: rest) key v = none :: local_set rest key v := by
  simp [local_set, local_data_lookup, hl]

/-- Helper: after `local_set`, looking the key up finds the new value. -/
theorem lookup_local_set (key : Key) (v : Val) :
    ∀ map : TaskLocalMap, ∃ i,
      local_data_lookup (local_set map key v) key = some (i, v) := by
  intro map
  induction map with
  | nil => exact ⟨0, by simp [local_set, local_data_lookup, dvec_position]⟩
  | cons e rest ih =>
    cases e with
    | none =>
      cases hl : local_data_lookup rest key with
      | some p =>
        obtain ⟨i, u⟩ := p
        obtain ⟨i2, hi2⟩ := ih
        rw [local_set_cons_none_found key v rest i u hl]
        exact ⟨i2 + 1, by simp [local_data_lookup, hi2]⟩
      | none =>
        refine ⟨0, ?_⟩
        simp [local_set, local_data_lookup, hl, dvec_position]
    | some p =>
      obtain ⟨k, w⟩ := p
      by_cases hk : k = key
      · subst hk
        refine ⟨0, ?_⟩
        simp [local_set, local_data_lookup]
      · obtain ⟨i2, hi2⟩ := ih
        rw [local_set_cons_some_ne key v k w hk rest]
        exact ⟨i2 + 1, by simp [local_data_lookup, hk, hi2]⟩

/-- Helper: with at most one entry under the key beforehand, `local_set`
leaves exactly one. -/
theorem keyCount_local_set (map : TaskLocalMap) (key : Key) (v : Val)
    (hu : keyCount map key ≤ 1) :
    keyCount (local_set map key v) key = 1 := by
  cases hl : local_data_lookup map key with
  | some p =>
    obtain ⟨i, w⟩ := p
    have h1 : local_set map key v = map.set i (some (key, v)) := by
      simp [local_set, hl]
    have h2 := keyCount_set_found key v map i w hl
    have h3 : keyCount map key ≠ 0 := by
      intro h0
      rw [(lookup_none_iff_keyCount_zero key map).mpr h0] at hl
      exact absurd hl (by simp)
    rw [h1, h2]
    omega
  | none =>
    have h0 : keyCount map key = 0 := (lookup_none_iff_keyCount_zero key map).mp hl
    cases hp : dvec_position (fun x => x.isNone) map with
    | some j =>
      have h1 : local_set map key v = map.set j (some (key, v)) := by
        simp [local_set, hl, hp]
      rw [h1, keyCount_set_empty key v map j (get?_of_position_isNone map j hp), h0]
    | none =>
      have h1 : local_set map key v = map ++ [some (key, v)] := by
        simp [local_set, hl, hp]
      rw [h1]
      unfold keyCount at h0 ⊢
      rw [List.countP_append, h0]
      simp [List.countP_cons]

/-- C8: the TLS round-trip.  After `set(K,v)`: `get(K)` returns the value;
`pop(K)` returns it and clears the slot, so a second `pop(K)` returns
nothing; `set` on a present key replaces that entry in place, while `set` on
an absent key fills the first empty slot if any and appends otherwise.  The
hypothesis is the data-model invariant that keys are unique within a map. -/
theorem c8_tls_roundtrip (map : TaskLocalMap) (key : Key) (v : Val)
    (hu : keyCount map key ≤ 1) :
    local_get (local_set map key v) key = some v ∧
    (local_pop (local_set map key v) key).2 = some v ∧
    (local_pop ((local_pop (local_set map key v) key).1) key).2 = none ∧
    (∀ i w, local_data_lookup map key = some (i, w) →
      local_set map key v = map.set i (some (key, v))) ∧
    (local_data_lookup map key = none →
      (∀ j, dvec_position (fun x => x.isNone) map = some j →
        local_set map key v = map.set j (some (key, v))) ∧
      (dvec_position (fun x => x.isNone) map = none →
        local_set map key v = map ++ [some (key, v)])) := by
  obtain ⟨i, hi⟩ := lookup_local_set key v map
  have hc1 : keyCount (local_set map key v) key = 1 := keyCount_local_set map key v hu
  refine ⟨?_, ?_, ?_, ?_, ?_⟩
  · simp [local_get, local_get_helper, hi]
  · simp [local_pop, local_get_helper, hi]
  · have hm2 : (local_pop (local_set map key v) key).1 =
        (local_set map key v).set i none := by
      simp [local_pop, local_get_helper, hi]
    rw [hm2]
    have hc2 := keyCount_set_none_of_lookup key (local_set map key v) i v hi
    have h0 : keyCount ((local_set map key v).set i none) key = 0 := by omega
    have hnone := (lookup_none_iff_keyCount_zero key _).mpr h0
    simp [local_pop, local_get_helper, hnone]
  · intro i2 w h
    simp [local_set, h]
  · intro hl
    exact ⟨fun j hj => by simp [local_set, hl, hj], fun hj => by simp [local_set, hl, hj]⟩

/-- Closed instance of the C8 theorem on a concrete map with an occupied
alien slot and an empty slot. -/
theorem c8_tls_roundtrip_witness :
    local_get (local_set [some (5, 10), none] 3 42) 3 = some 42 ∧
    (local_pop (local_set [some (5, 10), none] 3 42) 3).2 = some 42 ∧
    (local_pop ((local_pop (local_set [some (5, 10), none] 3 42) 3).1) 3).2 = none ∧
    (∀ i w, local_data_lookup [some (5, 10), none] 3 = some (i, w) →
      local_set [some (5, 10), none] 3 42 = [some (5, 10), none].set i (some (3, 42))) ∧
    (local_data_lookup [some (5, 10), none] 3 = none →
      (∀ j, dvec_position (fun x => x.isNone) [some (5, 10), none] = some j →
        local_set [some (5, 10), none] 3 42 = [some (5, 10), none].set j (some (3, 42))) ∧
      (dvec_position (fun x => x.isNone) [some (5, 10), none] = none →
        local_set [some (5, 10), none] 3 42 = [some (5, 10), none] ++ [some (3, 42)])) :=
  c8_tls_roundtrip [some (5, 10), none] 3 42 (by decide)

end RustTask
